import Mathlib

/-!
Shallow embedding of `conversation_utils.py` (ConversationManager):
per-user conversation store with a pinned system turn, pair-count and
token-budget truncation, TTL purge, and fallback prompt rendering.

Timestamps are modelled as integers; the optional tokenizer is absent
(fallback mode), with the token counter abstracted as a function
`String → Nat` (total, for the main model) or `String → Except Unit Nat`
(fallible, for the error-handling model).
-/

/-- Chat roles: the `"role"` field of a message dict. -/
inductive Role where
  | system
  | user
  | assistant
deriving DecidableEq, Repr

/-- `ChatMessage = Dict[str, str]` with keys `role` and `content`. -/
structure ChatMessage where
  role : Role
  content : String
deriving DecidableEq, Repr

/-- The configuration fields of `BotConfig` that the conversation core reads. -/
structure BotConfig where
  system_prompt : String
  history_max_pairs : Int
  history_max_tokens : Int
  history_ttl_seconds : Int
deriving DecidableEq, Repr

/-- `ConversationEntry`: one user's history plus the last-update timestamp. -/
structure ConversationEntry where
  history : List ChatMessage
  updated_at : Int
deriving DecidableEq, Repr

/-- The store `self._store : Dict[int, ConversationEntry]`, as a partial map. -/
def Store : Type := Int → Option ConversationEntry

/-- The empty store (a freshly constructed manager). -/
def emptyStore : Store := fun _ => none

/-- Update the store at one key (dict item assignment). -/
def storeSet (s : Store) (u : Int) (e : ConversationEntry) : Store :=
  fun v => if v = u then some e else s v

/-- Fallback branch of `build_prompt_from_history` / `build_prompt`:
one `prompt_parts` element per message, chosen by role. -/
def renderTurn (msg : ChatMessage) : String :=
  match msg.role with
  | .system => "<|system|>\n" ++ msg.content ++ "\n"
  | .user => "<|user|>\n" ++ msg.content ++ "\n"
  | .assistant => "<|assistant|>\n" ++ msg.content ++ "\n"

/-- `build_prompt_from_history(history, add_generation_prompt)` with no
tokenizer configured: join the per-turn parts, then the generation cue. -/
def build_prompt_from_history (history : List ChatMessage)
    (add_generation_prompt : Bool := true) : String :=
  String.join (history.map renderTurn ++
    (if add_generation_prompt then ["<|assistant|>\n"] else []))

/-- `_count_tokens(prompt)` with no tokenizer: whitespace-split word count
(Python `str.split()` drops empty pieces), with the empty-prompt shortcut. -/
def count_tokens (prompt : String) : Nat :=
  if prompt = "" then 0
  else ((prompt.split Char.isWhitespace).filter (· ≠ "")).length

/-- Pair-count pass of `_truncate_history`: if `max_pairs > 0` and the history
is longer than `1 + 2*max_pairs`, keep `history[0]` plus the last
`max_messages - 1` turns (`history[:] = [system] + history[-(max_messages-1):]`). -/
def pairPass (max_pairs : Int) (history : List ChatMessage) : List ChatMessage :=
  if 0 < max_pairs then
    let max_messages : Nat := 1 + 2 * max_pairs.toNat
    if max_messages < history.length then
      match history with
      | [] => []
      | system :: _ =>
          system :: history.drop (history.length - (max_messages - 1))
    else history
  else history

/-- Token-budget loop of `_truncate_history`: while more than one turn remains,
render and count; stop when within budget; otherwise delete `history[1:3]`
when more than two turns remain, else stop. -/
def tokenPass (count : String → Nat) (max_tokens : Int)
    (history : List ChatMessage) : List ChatMessage :=
  if h1 : 1 < history.length then
    if (count (build_prompt_from_history history) : Int) ≤ max_tokens then
      history
    else if h2 : 2 < history.length then
      tokenPass count max_tokens (history.take 1 ++ history.drop 3)
    else history
  else history
termination_by history.length
decreasing_by
  simp only [List.length_append, List.length_take, List.length_drop]
  omega

/-- `_truncate_history`: pair-count pass, then (if `max_tokens > 0`) the
token-budget pass. -/
def truncate_history (count : String → Nat) (cfg : BotConfig)
    (history : List ChatMessage) : List ChatMessage :=
  let h1 := pairPass cfg.history_max_pairs history
  if cfg.history_max_tokens ≤ 0 then h1
  else tokenPass count cfg.history_max_tokens h1

/-- `purge_inactive`: when the TTL is positive, drop every entry whose age
`now - updated_at` strictly exceeds it; otherwise do nothing. -/
def purge_inactive (cfg : BotConfig) (now : Int) (s : Store) : Store :=
  if cfg.history_ttl_seconds ≤ 0 then s
  else fun v =>
    match s v with
    | some e =>
        if cfg.history_ttl_seconds < now - e.updated_at then none else some e
    | none => none

/-- `_ensure_entry`: return the existing entry, or insert one seeded with the
single system turn and `updated_at = now`. -/
def ensure_entry (cfg : BotConfig) (now : Int) (s : Store) (u : Int) :
    ConversationEntry × Store :=
  match s u with
  | some e => (e, s)
  | none =>
      let e : ConversationEntry :=
        { history := [⟨Role.system, cfg.system_prompt⟩], updated_at := now }
      (e, storeSet s u e)

/-- `add_user_message`: purge, ensure the entry, append the user turn, stamp
`updated_at`, truncate. -/
def add_user_message (count : String → Nat) (cfg : BotConfig) (now : Int)
    (s : Store) (u : Int) (content : String) : Store :=
  let s1 := purge_inactive cfg now s
  let es := ensure_entry cfg now s1 u
  storeSet es.2 u
    { history := truncate_history count cfg (es.1.history ++ [⟨Role.user, content⟩]),
      updated_at := now }

/-- `add_assistant_message`: like `add_user_message` but role assistant and
no purge sweep. -/
def add_assistant_message (count : String → Nat) (cfg : BotConfig) (now : Int)
    (s : Store) (u : Int) (content : String) : Store :=
  let es := ensure_entry cfg now s u
  storeSet es.2 u
    { history := truncate_history count cfg (es.1.history ++ [⟨Role.assistant, content⟩]),
      updated_at := now }

/-- `get_history`: ensure the entry, return (a copy of) its history; the
returned store reflects the possible insertion done by `_ensure_entry`. -/
def get_history (cfg : BotConfig) (now : Int) (s : Store) (u : Int) :
    List ChatMessage × Store :=
  let es := ensure_entry cfg now s u
  (es.1.history, es.2)

/-- `build_prompt` with no tokenizer: ensure the entry, render its history in
fallback mode; the returned store reflects the possible insertion. -/
def build_prompt (cfg : BotConfig) (now : Int) (s : Store) (u : Int)
    (add_generation_prompt : Bool := true) : String × Store :=
  let es := ensure_entry cfg now s u
  (build_prompt_from_history es.1.history add_generation_prompt, es.2)

/-- `clear_history`: delete the entry if present. -/
def clear_history (s : Store) (u : Int) : Store :=
  fun v => if v = u then none else s v

/-- One public call on the manager, with the wall-clock time it observes. -/
inductive Op where
  | addUser (now : Int) (u : Int) (content : String)
  | addAssistant (now : Int) (u : Int) (content : String)
  | getHist (now : Int) (u : Int)
  | buildPrompt (now : Int) (u : Int) (flag : Bool)
  | clear (u : Int)

/-- Effect of one public call on the store. -/
def applyOp (count : String → Nat) (cfg : BotConfig) (s : Store) : Op → Store
  | .addUser now u c => add_user_message count cfg now s u c
  | .addAssistant now u c => add_assistant_message count cfg now s u c
  | .getHist now u => (get_history cfg now s u).2
  | .buildPrompt now u flag => (build_prompt cfg now s u flag).2
  | .clear u => clear_history s u

/-- Run a sequence of public calls from a starting store. -/
def runOps (count : String → Nat) (cfg : BotConfig) (s : Store)
    (ops : List Op) : Store :=
  ops.foldl (applyOp count cfg) s

/-! ### Lemmas about the truncation passes -/

theorem tokenPass_shape (count : String → Nat) (mt : Int) :
    ∀ (h : List ChatMessage) (x : ChatMessage) (t : List ChatMessage),
      h = x :: t → ∃ k, tokenPass count mt h = x :: t.drop (2 * k) := by
  intro h
  induction h using tokenPass.induct count mt with
  | case1 h hlen hle =>
      intro x t hxt
      subst hxt
      refine ⟨0, ?_⟩
      rw [tokenPass, dif_pos hlen, if_pos hle, List.drop_zero]
  | case2 h hlen hle hbig ih =>
      intro x t hxt
      subst hxt
      obtain ⟨k, hk⟩ := ih x (t.drop 2) (by simp)
      refine ⟨k + 1, ?_⟩
      have h3 : List.drop (2 * k) (List.drop 2 t) = List.drop (2 * (k + 1)) t := by
        rw [List.drop_drop]
        congr 1
        omega
      rw [tokenPass, dif_pos hlen, if_neg hle, dif_pos hbig, hk, h3]
  | case3 h hlen hle hsmall =>
      intro x t hxt
      subst hxt
      refine ⟨0, ?_⟩
      rw [tokenPass, dif_pos hlen, if_neg hle, dif_neg hsmall, List.drop_zero]
  | case4 h hlen =>
      intro x t hxt
      subst hxt
      refine ⟨0, ?_⟩
      rw [tokenPass, dif_neg hlen, List.drop_zero]

theorem tokenPass_post (count : String → Nat) (mt : Int) (h : List ChatMessage) :
    (count (build_prompt_from_history (tokenPass count mt h)) : Int) ≤ mt ∨
      (tokenPass count mt h).length ≤ 2 := by
  induction h using tokenPass.induct count mt with
  | case1 h hlen hle =>
      left
      rw [tokenPass, dif_pos hlen, if_pos hle]
      exact hle
  | case2 h hlen hle hbig ih =>
      rw [tokenPass, dif_pos hlen, if_neg hle, dif_pos hbig]
      exact ih
  | case3 h hlen hle hsmall =>
      right
      rw [tokenPass, dif_pos hlen, if_neg hle, dif_neg hsmall]
      omega
  | case4 h hlen =>
      right
      rw [tokenPass, dif_neg hlen]
      omega

theorem tokenPass_nil (count : String → Nat) (mt : Int) :
    tokenPass count mt [] = [] := by
  rw [tokenPass]
  simp

theorem tokenPass_length_le (count : String → Nat) (mt : Int)
    (h : List ChatMessage) : (tokenPass count mt h).length ≤ h.length := by
  cases h with
  | nil => rw [tokenPass_nil]
  | cons x t =>
      obtain ⟨k, hk⟩ := tokenPass_shape count mt (x :: t) x t rfl
      rw [hk]
      simp only [List.length_cons, List.length_drop]
      omega

theorem pairPass_cons_of_lt (mp : Int) (x : ChatMessage) (t : List ChatMessage)
    (hmp : 0 < mp) (hlen : 1 + 2 * mp.toNat < (x :: t).length) :
    pairPass mp (x :: t) = x :: (x :: t).drop ((x :: t).length - 2 * mp.toNat) := by
  unfold pairPass
  rw [if_pos hmp, if_pos hlen]
  have hmm : 1 + 2 * mp.toNat - 1 = 2 * mp.toNat := by omega
  rw [hmm]

theorem pairPass_eq_self (mp : Int) (h : List ChatMessage)
    (hc : ¬ 0 < mp ∨ ¬ (1 + 2 * mp.toNat < h.length)) :
    pairPass mp h = h := by
  unfold pairPass
  rcases hc with hc | hc
  · rw [if_neg hc]
  · by_cases hmp : 0 < mp
    · rw [if_pos hmp, if_neg hc]
    · rw [if_neg hmp]

theorem pairPass_length (mp : Int) (h : List ChatMessage) :
    (pairPass mp h).length =
      if 0 < mp ∧ 1 + 2 * mp.toNat < h.length then 1 + 2 * mp.toNat
      else h.length := by
  by_cases hmp : 0 < mp
  · by_cases hlen : 1 + 2 * mp.toNat < h.length
    · cases h with
      | nil => simp at hlen
      | cons x t =>
          rw [pairPass_cons_of_lt mp x t hmp hlen, if_pos ⟨hmp, hlen⟩]
          simp only [List.length_cons, List.length_drop] at hlen ⊢
          omega
    · rw [pairPass_eq_self mp h (Or.inr hlen)]
      simp [hlen]
  · rw [pairPass_eq_self mp h (Or.inl hmp)]
    simp [hmp]

theorem pairPass_shape (mp : Int) (x : ChatMessage) (t : List ChatMessage) :
    ∃ t', pairPass mp (x :: t) = x :: t' ∧ ∀ m ∈ t', m ∈ t := by
  by_cases hmp : 0 < mp
  · by_cases hlen : 1 + 2 * mp.toNat < (x :: t).length
    · rw [pairPass_cons_of_lt mp x t hmp hlen]
      refine ⟨_, rfl, ?_⟩
      intro m hm
      have hrw : (x :: t).drop ((x :: t).length - 2 * mp.toNat) =
          t.drop ((x :: t).length - 2 * mp.toNat - 1) := by
        rw [show (x :: t).length - 2 * mp.toNat =
          ((x :: t).length - 2 * mp.toNat - 1) + 1 by
            simp only [List.length_cons] at hlen ⊢
            omega]
        rfl
      rw [hrw] at hm
      exact List.drop_subset _ t hm
    · rw [pairPass_eq_self mp _ (Or.inr hlen)]
      exact ⟨t, rfl, fun m hm => hm⟩
  · rw [pairPass_eq_self mp _ (Or.inl hmp)]
    exact ⟨t, rfl, fun m hm => hm⟩

-- scratch: invariant framework

/-- The pinned-system-turn predicate on a history: the configured System turn
heads the list and no later turn has the System role. -/
def GoodHistory (cfg : BotConfig) (h : List ChatMessage) : Prop :=
  ∃ t, h = ⟨Role.system, cfg.system_prompt⟩ :: t ∧ ∀ m ∈ t, m.role ≠ Role.system

/-- A predicate holds of every history stored in the map. -/
def StoreInv (P : List ChatMessage → Prop) (s : Store) : Prop :=
  ∀ u e, s u = some e → P e.history

theorem ensure_entry_of_some (cfg : BotConfig) (now : Int) (s : Store) (u : Int)
    (e : ConversationEntry) (h : s u = some e) :
    ensure_entry cfg now s u = (e, s) := by
  unfold ensure_entry
  rw [h]

theorem ensure_entry_of_none (cfg : BotConfig) (now : Int) (s : Store) (u : Int)
    (h : s u = none) :
    ensure_entry cfg now s u =
      (⟨[⟨Role.system, cfg.system_prompt⟩], now⟩,
        storeSet s u ⟨[⟨Role.system, cfg.system_prompt⟩], now⟩) := by
  unfold ensure_entry
  rw [h]

theorem storeInv_purge (cfg : BotConfig) (now : Int) (P : List ChatMessage → Prop)
    (s : Store) (hs : StoreInv P s) : StoreInv P (purge_inactive cfg now s) := by
  intro v e hv
  unfold purge_inactive at hv
  by_cases httl : cfg.history_ttl_seconds ≤ 0
  · rw [if_pos httl] at hv
    exact hs v e hv
  · rw [if_neg httl] at hv
    cases hsv : s v with
    | none => simp [hsv] at hv
    | some e' =>
        simp only [hsv] at hv
        by_cases hstale : cfg.history_ttl_seconds < now - e'.updated_at
        · simp [hstale] at hv
        · simp only [if_neg hstale, Option.some.injEq] at hv
          subst hv
          exact hs v e' hsv

theorem storeInv_storeSet (P : List ChatMessage → Prop) (s : Store) (u : Int)
    (e : ConversationEntry) (hs : StoreInv P s) (he : P e.history) :
    StoreInv P (storeSet s u e) := by
  intro v e' hv
  unfold storeSet at hv
  by_cases hvu : v = u
  · rw [if_pos hvu, Option.some.injEq] at hv
    subst hv
    exact he
  · rw [if_neg hvu] at hv
    exact hs v e' hv

theorem storeInv_ensure (cfg : BotConfig) (now : Int) (P : List ChatMessage → Prop)
    (s : Store) (u : Int) (hs : StoreInv P s)
    (hseed : P [⟨Role.system, cfg.system_prompt⟩]) :
    P (ensure_entry cfg now s u).1.history ∧ StoreInv P (ensure_entry cfg now s u).2 := by
  cases hsu : s u with
  | some e =>
      rw [ensure_entry_of_some cfg now s u e hsu]
      exact ⟨hs u e hsu, hs⟩
  | none =>
      rw [ensure_entry_of_none cfg now s u hsu]
      exact ⟨hseed, storeInv_storeSet P s u _ hs hseed⟩

theorem storeInv_clear (P : List ChatMessage → Prop) (s : Store) (u : Int)
    (hs : StoreInv P s) : StoreInv P (clear_history s u) := by
  intro v e hv
  unfold clear_history at hv
  by_cases hvu : v = u
  · simp [hvu] at hv
  · rw [if_neg hvu] at hv
    exact hs v e hv

theorem storeInv_applyOp (count : String → Nat) (cfg : BotConfig)
    (P : List ChatMessage → Prop)
    (hseed : P [⟨Role.system, cfg.system_prompt⟩])
    (hadd : ∀ (r : Role) (c : String) (h : List ChatMessage), r ≠ Role.system →
      P h → P (truncate_history count cfg (h ++ [⟨r, c⟩])))
    (s : Store) (hs : StoreInv P s) (op : Op) :
    StoreInv P (applyOp count cfg s op) := by
  cases op with
  | addUser now u c =>
      have h1 := storeInv_purge cfg now P s hs
      have h2 := storeInv_ensure cfg now P (purge_inactive cfg now s) u h1 hseed
      exact storeInv_storeSet P _ u _ h2.2
        (hadd Role.user c _ (by intro hr; cases hr) h2.1)
  | addAssistant now u c =>
      have h2 := storeInv_ensure cfg now P s u hs hseed
      exact storeInv_storeSet P _ u _ h2.2
        (hadd Role.assistant c _ (by intro hr; cases hr) h2.1)
  | getHist now u =>
      exact (storeInv_ensure cfg now P s u hs hseed).2
  | buildPrompt now u flag =>
      exact (storeInv_ensure cfg now P s u hs hseed).2
  | clear u =>
      exact storeInv_clear P s u hs

theorem storeInv_runOps (count : String → Nat) (cfg : BotConfig)
    (P : List ChatMessage → Prop)
    (hseed : P [⟨Role.system, cfg.system_prompt⟩])
    (hadd : ∀ (r : Role) (c : String) (h : List ChatMessage), r ≠ Role.system →
      P h → P (truncate_history count cfg (h ++ [⟨r, c⟩])))
    (ops : List Op) :
    ∀ s : Store, StoreInv P s → StoreInv P (runOps count cfg s ops) := by
  induction ops with
  | nil => intro s hs; exact hs
  | cons op rest ih =>
      intro s hs
      exact ih _ (storeInv_applyOp count cfg P hseed hadd s hs op)

theorem truncate_history_good (count : String → Nat) (cfg : BotConfig)
    (h : List ChatMessage) (m : ChatMessage) (hm : m.role ≠ Role.system)
    (hg : GoodHistory cfg h) :
    GoodHistory cfg (truncate_history count cfg (h ++ [m])) := by
  obtain ⟨t, rfl, ht⟩ := hg
  rw [List.cons_append]
  obtain ⟨t', hp, hsub⟩ := pairPass_shape cfg.history_max_pairs _ (t ++ [m])
  have ht' : ∀ m' ∈ t', m'.role ≠ Role.system := by
    intro m' hm'
    rcases List.mem_append.1 (hsub m' hm') with hmem | hmem
    · exact ht m' hmem
    · rw [List.mem_singleton.1 hmem]
      exact hm
  unfold truncate_history
  rw [hp]
  by_cases hmt : cfg.history_max_tokens ≤ 0
  · rw [if_pos hmt]
    exact ⟨t', rfl, ht'⟩
  · rw [if_neg hmt]
    obtain ⟨k, hk⟩ := tokenPass_shape count cfg.history_max_tokens _ _ t' rfl
    rw [hk]
    exact ⟨t'.drop (2 * k), rfl, fun m' hm' => ht' m' (List.drop_subset _ t' hm')⟩

theorem truncate_history_length (count : String → Nat) (cfg : BotConfig)
    (h : List ChatMessage) (m : ChatMessage)
    (hmp : 0 < cfg.history_max_pairs)
    (hl : h.length ≤ 1 + 2 * cfg.history_max_pairs.toNat) :
    (truncate_history count cfg (h ++ [m])).length ≤
      1 + 2 * cfg.history_max_pairs.toNat := by
  have hb : (pairPass cfg.history_max_pairs (h ++ [m])).length ≤
      1 + 2 * cfg.history_max_pairs.toNat := by
    by_cases hlen : 1 + 2 * cfg.history_max_pairs.toNat < (h ++ [m]).length
    · rw [pairPass_length, if_pos ⟨hmp, hlen⟩]
    · rw [pairPass_eq_self _ _ (Or.inr hlen)]
      omega
  unfold truncate_history
  by_cases hmt : cfg.history_max_tokens ≤ 0
  · rw [if_pos hmt]
    exact hb
  · rw [if_neg hmt]
    exact le_trans (tokenPass_length_le count _ _) hb

/-! ### Claim theorems: invariants and truncation -/

/-- Concrete entry used by witnesses of the reachable-state theorems. -/
def entryW1 : ConversationEntry :=
  { history := [⟨Role.system, "p"⟩, ⟨Role.user, "hi"⟩], updated_at := 5 }

/-- Concrete entry left by the pair-splitting run with `history_max_pairs = 1`. -/
def entryW2 : ConversationEntry :=
  { history := [⟨Role.system, "p"⟩, ⟨Role.assistant, "r1"⟩, ⟨Role.user, "m2"⟩],
    updated_at := 3 }

/-- C1. Pinned system turn: in every state reachable from a fresh manager by
any sequence of `add_user_message`, `add_assistant_message`, `get_history`,
`build_prompt` and `clear_history` calls, every stored history is non-empty,
begins with the System turn carrying the configured `system_prompt`, and has
no other System-role turn. -/
theorem pinned_system_turn (count : String → Nat) (cfg : BotConfig)
    (ops : List Op) (u : Int) (e : ConversationEntry)
    (hreach : runOps count cfg emptyStore ops u = some e) :
    e.history ≠ [] ∧
    e.history.head? = some ⟨Role.system, cfg.system_prompt⟩ ∧
    ∀ m ∈ e.history.tail, m.role ≠ Role.system := by
  have hempty : StoreInv (GoodHistory cfg) emptyStore := by
    intro v e' hv
    simp [emptyStore] at hv
  have hinv := storeInv_runOps count cfg (GoodHistory cfg)
    ⟨[], rfl, by intro m hm; simp at hm⟩
    (fun r c h hr hg => truncate_history_good count cfg h ⟨r, c⟩ hr hg)
    ops emptyStore hempty
  obtain ⟨t, hht, ht⟩ := hinv u e hreach
  rw [hht]
  exact ⟨by simp, rfl, ht⟩

/-- Witness for C1 at a concrete run: one `add_user_message` call on a fresh
manager with pair and token limits disabled. -/
theorem pinned_system_turn_witness :
    entryW1.history ≠ [] ∧
    entryW1.history.head? = some ⟨Role.system, ("p" : String)⟩ ∧
    ∀ m ∈ entryW1.history.tail, m.role ≠ Role.system :=
  pinned_system_turn count_tokens ⟨"p", 0, 0, 0⟩ [Op.addUser 5 1 "hi"] 1
    entryW1 (by rfl)

/-- C3. Pair cap: with `history_max_pairs = N > 0`, every stored history in
every reachable state has at most `1 + 2N` turns. -/
theorem pair_cap (count : String → Nat) (cfg : BotConfig)
    (hN : 0 < cfg.history_max_pairs)
    (ops : List Op) (u : Int) (e : ConversationEntry)
    (hreach : runOps count cfg emptyStore ops u = some e) :
    (e.history.length : Int) ≤ 1 + 2 * cfg.history_max_pairs := by
  have hempty : StoreInv (fun h => h.length ≤ 1 + 2 * cfg.history_max_pairs.toNat)
      emptyStore := by
    intro v e' hv
    simp [emptyStore] at hv
  have hinv := storeInv_runOps count cfg
    (fun h => h.length ≤ 1 + 2 * cfg.history_max_pairs.toNat)
    (by simp)
    (fun r c h _ hlen => truncate_history_length count cfg h ⟨r, c⟩ hN hlen)
    ops emptyStore hempty
  have hle := hinv u e hreach
  simp only at hle
  omega

/-- Witness for C3: with `history_max_pairs = 1`, three appends on a fresh
manager leave at most 3 turns. -/
theorem pair_cap_witness :
    (entryW2.history.length : Int) ≤ 1 + 2 * (⟨"p", 1, 0, 0⟩ : BotConfig).history_max_pairs :=
  pair_cap count_tokens ⟨"p", 1, 0, 0⟩ (by decide)
    [Op.addUser 1 7 "m1", Op.addAssistant 2 7 "r1", Op.addUser 3 7 "m2"] 7
    entryW2 (by rfl)

/-- Concrete messages and config used by the token-budget witness. -/
def sysW : ChatMessage := ⟨Role.system, "p"⟩

def usrW : ChatMessage := ⟨Role.user, "hello world"⟩

def cfgW2 : BotConfig := ⟨"p", 0, 1, 0⟩

/-- C2. Token-budget pass with budget `B > 0`: the loop keeps the head turn
(the System turn) and removes only whole oldest pairs, never emptying the
history; while the rendered count exceeds `B` and more than 2 turns remain it
deletes the turns at indices 1 and 2 and repeats; on termination the rendered
count is within `B` or at most 2 turns remain; and `_truncate_history` runs
this loop on the pair-pass result exactly when the budget is positive. -/
theorem token_budget_pass (count : String → Nat) (cfg : BotConfig) (B : Int)
    (hB : 0 < B) (hcfg : cfg.history_max_tokens = B)
    (x : ChatMessage) (t : List ChatMessage) :
    (∃ k, tokenPass count B (x :: t) = x :: t.drop (2 * k)) ∧
    tokenPass count B (x :: t) ≠ [] ∧
    (tokenPass count B (x :: t)).head? = some x ∧
    ((count (build_prompt_from_history (tokenPass count B (x :: t))) : Int) ≤ B ∨
      (tokenPass count B (x :: t)).length ≤ 2) ∧
    (∀ h : List ChatMessage, 2 < h.length →
      B < (count (build_prompt_from_history h) : Int) →
      tokenPass count B h = tokenPass count B (h.take 1 ++ h.drop 3)) ∧
    truncate_history count cfg (x :: t) =
      tokenPass count B (pairPass cfg.history_max_pairs (x :: t)) := by
  obtain ⟨k, hk⟩ := tokenPass_shape count B (x :: t) x t rfl
  refine ⟨⟨k, hk⟩, by rw [hk]; simp, by rw [hk]; rfl,
    tokenPass_post count B (x :: t), ?_, ?_⟩
  · intro h hh2 hgt
    rw [tokenPass, dif_pos (by omega), if_neg (not_le.mpr hgt), dif_pos hh2]
  · unfold truncate_history
    rw [hcfg, if_neg (by omega)]

/-- Witness for C2 at a concrete budget, counter and history. -/
theorem token_budget_pass_witness :
    (∃ k, tokenPass count_tokens 1 (sysW :: [usrW]) = sysW :: [usrW].drop (2 * k)) ∧
    tokenPass count_tokens 1 (sysW :: [usrW]) ≠ [] ∧
    (tokenPass count_tokens 1 (sysW :: [usrW])).head? = some sysW ∧
    ((count_tokens (build_prompt_from_history (tokenPass count_tokens 1 (sysW :: [usrW]))) : Int) ≤ 1 ∨
      (tokenPass count_tokens 1 (sysW :: [usrW])).length ≤ 2) ∧
    (∀ h : List ChatMessage, 2 < h.length →
      1 < (count_tokens (build_prompt_from_history h) : Int) →
      tokenPass count_tokens 1 h = tokenPass count_tokens 1 (h.take 1 ++ h.drop 3)) ∧
    truncate_history count_tokens cfgW2 (sysW :: [usrW]) =
      tokenPass count_tokens 1 (pairPass cfgW2.history_max_pairs (sysW :: [usrW])) :=
  token_budget_pass count_tokens cfgW2 1 (by decide) rfl sysW [usrW]

/-- C4. Pair-count pass: when `history_max_pairs > 0` and the history exceeds
`max_messages = 1 + 2*history_max_pairs` turns, the pass keeps turn 0 plus the
last `max_messages - 1` turns in order; with `history_max_pairs = 2`, appending
pairs A, B, C to a fresh entry leaves `[System, B_u, B_a, C_u, C_a]`. -/
theorem pair_count_pass_spec (mp : Int) (x : ChatMessage) (t : List ChatMessage)
    (hmp : 0 < mp) (hlen : 1 + 2 * mp.toNat < (x :: t).length) :
    pairPass mp (x :: t) =
      x :: (x :: t).drop ((x :: t).length - 2 * mp.toNat) ∧
    runOps count_tokens ⟨"p", 2, 0, 0⟩ emptyStore
      [Op.addUser 1 9 "A_u", Op.addAssistant 1 9 "A_a", Op.addUser 2 9 "B_u",
       Op.addAssistant 2 9 "B_a", Op.addUser 3 9 "C_u", Op.addAssistant 3 9 "C_a"] 9 =
      some ⟨[⟨Role.system, "p"⟩, ⟨Role.user, "B_u"⟩, ⟨Role.assistant, "B_a"⟩,
             ⟨Role.user, "C_u"⟩, ⟨Role.assistant, "C_a"⟩], 3⟩ :=
  ⟨pairPass_cons_of_lt mp x t hmp hlen, by rfl⟩

/-- Witness for C4 at a concrete over-long history with `max_pairs = 2`. -/
theorem pair_count_pass_spec_witness :
    pairPass 2 (sysW :: [usrW, ⟨Role.assistant, "a1"⟩, ⟨Role.user, "u2"⟩,
        ⟨Role.assistant, "a2"⟩, ⟨Role.user, "u3"⟩, ⟨Role.assistant, "a3"⟩]) =
      sysW :: (sysW :: [usrW, ⟨Role.assistant, "a1"⟩, ⟨Role.user, "u2"⟩,
        ⟨Role.assistant, "a2"⟩, ⟨Role.user, "u3"⟩, ⟨Role.assistant, "a3"⟩]).drop
          ((sysW :: [usrW, ⟨Role.assistant, "a1"⟩, ⟨Role.user, "u2"⟩,
            ⟨Role.assistant, "a2"⟩, ⟨Role.user, "u3"⟩,
            ⟨Role.assistant, "a3"⟩]).length - 2 * (2 : Int).toNat) ∧
    runOps count_tokens ⟨"p", 2, 0, 0⟩ emptyStore
      [Op.addUser 1 9 "A_u", Op.addAssistant 1 9 "A_a", Op.addUser 2 9 "B_u",
       Op.addAssistant 2 9 "B_a", Op.addUser 3 9 "C_u", Op.addAssistant 3 9 "C_a"] 9 =
      some ⟨[⟨Role.system, "p"⟩, ⟨Role.user, "B_u"⟩, ⟨Role.assistant, "B_a"⟩,
             ⟨Role.user, "C_u"⟩, ⟨Role.assistant, "C_a"⟩], 3⟩ :=
  pair_count_pass_spec 2 sysW [usrW, ⟨Role.assistant, "a1"⟩, ⟨Role.user, "u2"⟩,
    ⟨Role.assistant, "a2"⟩, ⟨Role.user, "u3"⟩, ⟨Role.assistant, "a3"⟩]
    (by decide) (by decide)

/-- C10. Pair splitting at the cap: with `history_max_pairs = 1`, the calls
`add_user_message(u, m1)`, `add_assistant_message(u, r1)`,
`add_user_message(u, m2)` on a fresh user leave exactly
`[System, Assistant r1, User m2]` — the oldest retained pair is split and an
orphaned Assistant turn sits at index 1. -/
theorem pair_splitting_at_cap (p m1 r1 m2 : String) :
    runOps count_tokens ⟨p, 1, 0, 0⟩ emptyStore
      [Op.addUser 1 7 m1, Op.addAssistant 2 7 r1, Op.addUser 3 7 m2] 7 =
      some ⟨[⟨Role.system, p⟩, ⟨Role.assistant, r1⟩, ⟨Role.user, m2⟩], 3⟩ := by
  rfl

/-! ### Claim theorems: TTL purge and rendering -/

theorem ensure_entry_snd_ne (cfg : BotConfig) (now : Int) (s : Store)
    (u v : Int) (hvu : v ≠ u) : (ensure_entry cfg now s u).2 v = s v := by
  unfold ensure_entry
  cases hsu : s u with
  | some e => rfl
  | none => simp [storeSet, hvu]

/-- Entry and store used by the purge and read witnesses. -/
def entryT : ConversationEntry := ⟨[⟨Role.system, "p"⟩], 0⟩

def sT : Store := storeSet emptyStore 2 entryT

def cfgT : BotConfig := ⟨"p", 0, 0, 5⟩

/-- C8. TTL purge: with a positive TTL, `purge_inactive` removes exactly the
entries whose age strictly exceeds the TTL; with TTL ≤ 0 it removes nothing;
the sweep runs at the start of `add_user_message` (a stale other entry is gone
afterwards) while `add_assistant_message` never purges (a stale other entry
survives untouched). -/
theorem ttl_purge_semantics (count : String → Nat) (cfg : BotConfig)
    (now : Int) (s : Store) (u v : Int) (c : String) :
    (0 < cfg.history_ttl_seconds →
      ∀ w e, s w = some e →
        purge_inactive cfg now s w =
          if cfg.history_ttl_seconds < now - e.updated_at then none else some e) ∧
    (∀ w, s w = none → purge_inactive cfg now s w = none) ∧
    (cfg.history_ttl_seconds ≤ 0 → purge_inactive cfg now s = s) ∧
    (0 < cfg.history_ttl_seconds → v ≠ u →
      ∀ e, s v = some e → cfg.history_ttl_seconds < now - e.updated_at →
        add_user_message count cfg now s u c v = none) ∧
    (v ≠ u → add_assistant_message count cfg now s u c v = s v) := by
  refine ⟨?_, ?_, ?_, ?_, ?_⟩
  · intro ht w e hw
    unfold purge_inactive
    rw [if_neg (by omega)]
    rw [hw]
  · intro w hw
    unfold purge_inactive
    by_cases httl : cfg.history_ttl_seconds ≤ 0
    · rw [if_pos httl]
      exact hw
    · rw [if_neg httl]
      rw [hw]
  · intro ht
    unfold purge_inactive
    rw [if_pos ht]
  · intro ht hvu e hsv hstale
    unfold add_user_message
    show (storeSet _ u _) v = none
    rw [storeSet, if_neg hvu, ensure_entry_snd_ne _ _ _ _ _ hvu]
    unfold purge_inactive
    rw [if_neg (by omega), hsv]
    simp [hstale]
  · intro hvu
    unfold add_assistant_message
    show (storeSet _ u _) v = s v
    rw [storeSet, if_neg hvu, ensure_entry_snd_ne _ _ _ _ _ hvu]

/-- Witness for C8: a stale entry for user 2 (age 10, TTL 5) is purged, and
`add_assistant_message` for user 1 leaves it untouched. -/
theorem ttl_purge_semantics_witness :
    purge_inactive cfgT 10 sT 2 =
      (if cfgT.history_ttl_seconds < 10 - entryT.updated_at then none
       else some entryT) ∧
    add_assistant_message count_tokens cfgT 10 sT 1 "r" 2 = sT 2 :=
  ⟨(ttl_purge_semantics count_tokens cfgT 10 sT 1 2 "r").1 (by decide) 2 entryT rfl,
   (ttl_purge_semantics count_tokens cfgT 10 sT 1 2 "r").2.2.2.2 (by decide)⟩

theorem string_join_cons (a : String) (l : List String) :
    String.join (a :: l) = a ++ String.join l := by
  apply String.ext
  simp [String.join_eq]

/-- Spec-side fallback rendering, following the spec's words: for each turn in
order, the tag line chosen by role, then the turn's content, then a newline;
a trailing `<|assistant|>\n` exactly when the generation cue is set. -/
def specTag : Role → String
  | .system => "<|system|>\n"
  | .user => "<|user|>\n"
  | .assistant => "<|assistant|>\n"

def specFallbackRender : List ChatMessage → Bool → String
  | [], cue => if cue then "<|assistant|>\n" else ""
  | m :: rest, cue =>
      specTag m.role ++ m.content ++ "\n" ++ specFallbackRender rest cue

/-- C9. Fallback rendering: with no tokenizer configured, rendering
concatenates per turn the role tag line, the content and a newline, with the
trailing assistant tag exactly when the cue flag is set; on
`[{System,"s"},{User,"u"}]` with the cue it yields exactly the literal string. -/
theorem fallback_rendering (h : List ChatMessage) (cue : Bool) :
    build_prompt_from_history h cue = specFallbackRender h cue ∧
    build_prompt_from_history [⟨Role.system, "s"⟩, ⟨Role.user, "u"⟩] true =
      "<|system|>\ns\n<|user|>\nu\n<|assistant|>\n" := by
  constructor
  · induction h with
    | nil => cases cue <;> rfl
    | cons m rest ih =>
        unfold build_prompt_from_history at ih ⊢
        rw [List.map_cons, List.cons_append, string_join_cons, ih]
        cases hr : m.role <;>
          simp [renderTurn, specFallbackRender, specTag, hr, String.append_assoc]
  · rfl

/-! ### Claim theorems: get_history defensive copy (heap view) -/

/-- Heap view of one conversation entry: Python message dicts are objects on
the heap, and `entry.history` is a list of references to them. An address is
an index into `heap`. -/
structure HeapEntry where
  heap : List ChatMessage
  histAddrs : List Nat
deriving DecidableEq, Repr

/-- `list(entry.history)`: the copy `get_history` returns is a new list
holding the same references. -/
def getHistoryRefs (e : HeapEntry) : List Nat := e.histAddrs

/-- In-place mutation of one message object through a reference (what a caller
can do to a turn inside the list `get_history` returned). -/
def writeTurn (e : HeapEntry) (a : Nat) (m : ChatMessage) : HeapEntry :=
  { e with heap := e.heap.set a m }

/-- The stored history as the resolved sequence of turns. -/
def readStoredHistory (e : HeapEntry) : List ChatMessage :=
  e.histAddrs.map (fun a => e.heap.getD a ⟨Role.system, ""⟩)

/-- One-cell heap entry used to exhibit the sharing. -/
def heapE0 : HeapEntry := ⟨[⟨Role.system, "s"⟩], [0]⟩

/-- C6 counterexample: the copy `get_history` returns is shallow — mutating a
turn object reachable through it changes the stored history, contradicting
"mutating the returned copy (including the turns it contains) does not affect
subsequent calls". -/
theorem get_history_shallow_cex :
    0 ∈ getHistoryRefs heapE0 ∧
    readStoredHistory (writeTurn heapE0 0 ⟨Role.system, "x"⟩) ≠
      readStoredHistory heapE0 := by decide

/-- C6 amended: `get_history` twice in a row with no intervening writes
returns equal sequences, and the returned list itself is a copy; but the copy
is shallow — the turn objects are shared, so mutating a returned turn in place
(to a different value) is visible in subsequent reads of the stored history. -/
theorem get_history_shallow_copy (cfg : BotConfig) (now1 now2 : Int)
    (s : Store) (u : Int) (e : HeapEntry) (i a : Nat) (m : ChatMessage)
    (hi : (getHistoryRefs e)[i]? = some a) (ha : a < e.heap.length)
    (hm : e.heap.getD a ⟨Role.system, ""⟩ ≠ m) :
    (get_history cfg now2 (get_history cfg now1 s u).2 u).1 =
      (get_history cfg now1 s u).1 ∧
    readStoredHistory (writeTurn e a m) ≠ readStoredHistory e := by
  constructor
  · unfold get_history
    cases hsu : s u with
    | some e' =>
        rw [ensure_entry_of_some cfg now1 s u e' hsu]
        rw [ensure_entry_of_some cfg now2 s u e' hsu]
    | none =>
        rw [ensure_entry_of_none cfg now1 s u hsu]
        rw [ensure_entry_of_some cfg now2
          (storeSet s u ⟨[⟨Role.system, cfg.system_prompt⟩], now1⟩) u
          ⟨[⟨Role.system, cfg.system_prompt⟩], now1⟩ (by simp [storeSet])]
  · intro hcontra
    have h1 : (readStoredHistory (writeTurn e a m))[i]? = some m := by
      unfold readStoredHistory writeTurn
      rw [List.getElem?_map, show e.histAddrs[i]? = some a from hi,
        Option.map_some']
      congr 1
      rw [List.getD_eq_getElem?_getD, List.getElem?_set_eq_of_lt m ha]
      rfl
    have h2 : (readStoredHistory e)[i]? =
        some (e.heap.getD a ⟨Role.system, ""⟩) := by
      unfold readStoredHistory
      rw [List.getElem?_map, show e.histAddrs[i]? = some a from hi,
        Option.map_some']
    rw [hcontra, h2] at h1
    exact hm (by injection h1)

/-- Witness for C6 (amended): consecutive reads agree on a concrete store, and
the sharing is visible on the one-cell heap entry. -/
theorem get_history_shallow_copy_witness :
    (get_history cfgT 1 (get_history cfgT 0 emptyStore 3).2 3).1 =
      (get_history cfgT 0 emptyStore 3).1 ∧
    readStoredHistory (writeTurn heapE0 0 ⟨Role.system, "x"⟩) ≠
      readStoredHistory heapE0 :=
  get_history_shallow_copy cfgT 1 0 emptyStore 3 heapE0 0 0
    ⟨Role.system, "x"⟩ (by rfl) (by decide) (by decide)

/-! ### Claim theorems: truncation under a fallible tokenizer -/

/-- Token-budget loop of `_truncate_history` with a fallible tokenizer
capability: `count` models `_count_tokens` whose encode step may raise. The
Boolean records whether an exception escaped the loop; the list is the
(in-place mutated) history at that moment. -/
def tokenPassE (count : String → Except Unit Nat) (max_tokens : Int)
    (history : List ChatMessage) : Bool × List ChatMessage :=
  if _h1 : 1 < history.length then
    match count (build_prompt_from_history history) with
    | .error _ => (true, history)
    | .ok tc =>
        if (tc : Int) ≤ max_tokens then (false, history)
        else if _h2 : 2 < history.length then
          tokenPassE count max_tokens (history.take 1 ++ history.drop 3)
        else (false, history)
  else (false, history)
termination_by history.length
decreasing_by
  simp only [List.length_append, List.length_take, List.length_drop]
  omega

/-- `_truncate_history` with a fallible tokenizer: the pair pass cannot fail;
an exception can escape only from the token-budget loop. -/
def truncate_historyE (count : String → Except Unit Nat) (cfg : BotConfig)
    (history : List ChatMessage) : Bool × List ChatMessage :=
  let h1 := pairPass cfg.history_max_pairs history
  if cfg.history_max_tokens ≤ 0 then (false, h1)
  else tokenPassE count cfg.history_max_tokens h1

theorem tokenPassE_error (count : String → Except Unit Nat) (mt : Int)
    (h : List ChatMessage) (e : Unit) (hlen : 1 < h.length)
    (hc : count (build_prompt_from_history h) = Except.error e) :
    tokenPassE count mt h = (true, h) := by
  rw [tokenPassE, dif_pos hlen, hc]

theorem tokenPassE_ok_gt (count : String → Except Unit Nat) (mt : Int)
    (h : List ChatMessage) (tc : Nat) (hlen : 1 < h.length)
    (hc : count (build_prompt_from_history h) = Except.ok tc)
    (hgt : ¬ ((tc : Int) ≤ mt)) (hbig : 2 < h.length) :
    tokenPassE count mt h = tokenPassE count mt (h.take 1 ++ h.drop 3) := by
  rw [tokenPassE, dif_pos hlen, hc]
  show (if (tc : Int) ≤ mt then (false, h)
      else if _h2 : 2 < h.length then tokenPassE count mt (h.take 1 ++ h.drop 3)
      else (false, h)) = tokenPassE count mt (h.take 1 ++ h.drop 3)
  rw [if_neg hgt, dif_pos hbig]

theorem tokenPassE_ok_le (count : String → Except Unit Nat) (mt : Int)
    (h : List ChatMessage) (tc : Nat) (hlen : 1 < h.length)
    (hc : count (build_prompt_from_history h) = Except.ok tc)
    (hle : (tc : Int) ≤ mt) :
    tokenPassE count mt h = (false, h) := by
  rw [tokenPassE, dif_pos hlen, hc]
  show (if (tc : Int) ≤ mt then (false, h)
      else if _h2 : 2 < h.length then tokenPassE count mt (h.take 1 ++ h.drop 3)
      else (false, h)) = (false, h)
  rw [if_pos hle]

theorem tokenPassE_ok_small (count : String → Except Unit Nat) (mt : Int)
    (h : List ChatMessage) (tc : Nat) (hlen : 1 < h.length)
    (hc : count (build_prompt_from_history h) = Except.ok tc)
    (hgt : ¬ ((tc : Int) ≤ mt)) (hsmall : ¬ 2 < h.length) :
    tokenPassE count mt h = (false, h) := by
  rw [tokenPassE, dif_pos hlen, hc]
  show (if (tc : Int) ≤ mt then (false, h)
      else if _h2 : 2 < h.length then tokenPassE count mt (h.take 1 ++ h.drop 3)
      else (false, h)) = (false, h)
  rw [if_neg hgt, dif_neg hsmall]

theorem tokenPassE_short (count : String → Except Unit Nat) (mt : Int)
    (h : List ChatMessage) (hlen : ¬ 1 < h.length) :
    tokenPassE count mt h = (false, h) := by
  rw [tokenPassE, dif_neg hlen]

theorem tokenPassE_shape (count : String → Except Unit Nat) (mt : Int) :
    ∀ (h : List ChatMessage) (x : ChatMessage) (t : List ChatMessage),
      h = x :: t → ∃ k, (tokenPassE count mt h).2 = x :: t.drop (2 * k) := by
  intro h
  induction h using tokenPassE.induct count mt with
  | case1 h hlen e hc =>
      intro x t hxt
      subst hxt
      exact ⟨0, by rw [tokenPassE_error count mt _ e hlen hc, List.drop_zero]⟩
  | case2 h hlen tc hc hle =>
      intro x t hxt
      subst hxt
      refine ⟨0, ?_⟩
      rw [tokenPassE_ok_le count mt _ tc hlen hc hle, List.drop_zero]
  | case3 h hlen tc hc hgt hbig ih =>
      intro x t hxt
      subst hxt
      obtain ⟨k, hk⟩ := ih x (t.drop 2) (by simp)
      refine ⟨k + 1, ?_⟩
      have h3 : List.drop (2 * k) (List.drop 2 t) = List.drop (2 * (k + 1)) t := by
        rw [List.drop_drop]
        congr 1
        omega
      rw [tokenPassE_ok_gt count mt _ tc hlen hc hgt hbig, hk, h3]
  | case4 h hlen tc hc hgt hsmall =>
      intro x t hxt
      subst hxt
      refine ⟨0, ?_⟩
      rw [tokenPassE_ok_small count mt _ tc hlen hc hgt hsmall, List.drop_zero]
  | case5 h hlen =>
      intro x t hxt
      subst hxt
      refine ⟨0, ?_⟩
      rw [tokenPassE_short count mt _ hlen, List.drop_zero]

/-- Concrete scenario for the atomicity counterexample: limits `max_pairs = 0`,
`max_tokens = 1`, and a five-turn history. -/
def cfgC5 : BotConfig := ⟨"p", 0, 1, 0⟩

def sysC5 : ChatMessage := ⟨Role.system, "p"⟩

def tC5 : List ChatMessage :=
  [⟨Role.user, "u1"⟩, ⟨Role.assistant, "a1"⟩,
   ⟨Role.user, "u2"⟩, ⟨Role.assistant, "a2"⟩]

def histC5 : List ChatMessage := sysC5 :: tC5

/-- A tokenizer whose encode step succeeds on the first rendered prompt and
raises on the shorter prompt rendered after the first pair deletion. -/
def cBad (s : String) : Except Unit Nat :=
  if s = build_prompt_from_history histC5 then Except.ok 100
  else Except.error ()

theorem truncE_eval :
    truncate_historyE cBad cfgC5 histC5 =
      (true, [⟨Role.system, "p"⟩, ⟨Role.user, "u2"⟩, ⟨Role.assistant, "a2"⟩]) := by
  have e1 : histC5.take 1 ++ histC5.drop 3 =
      [⟨Role.system, "p"⟩, ⟨Role.user, "u2"⟩, ⟨Role.assistant, "a2"⟩] := by rfl
  have e2 : cBad (build_prompt_from_history histC5) = Except.ok 100 := by
    unfold cBad
    rw [if_pos rfl]
  have e3 : cBad (build_prompt_from_history
      [⟨Role.system, "p"⟩, ⟨Role.user, "u2"⟩, ⟨Role.assistant, "a2"⟩]) =
      Except.error () := by
    unfold cBad
    rw [if_neg (by decide)]
  have e4 : tokenPassE cBad 1
      [⟨Role.system, "p"⟩, ⟨Role.user, "u2"⟩, ⟨Role.assistant, "a2"⟩] =
      (true, [⟨Role.system, "p"⟩, ⟨Role.user, "u2"⟩, ⟨Role.assistant, "a2"⟩]) :=
    tokenPassE_error cBad 1 _ () (by decide) e3
  have e5 : tokenPassE cBad 1 histC5 =
      (true, [⟨Role.system, "p"⟩, ⟨Role.user, "u2"⟩, ⟨Role.assistant, "a2"⟩]) := by
    rw [tokenPassE_ok_gt cBad 1 histC5 100 (by decide) e2 (by decide) (by decide)]
    rw [e1, e4]
  rw [truncate_historyE]
  rw [pairPass_eq_self _ _ (Or.inl (by decide))]
  rw [if_neg (by decide)]
  exact e5

/-- C5 counterexample: with tokenizer `cBad` failing on the second loop
iteration, `_truncate_history` surfaces the error while the history is neither
unmodified nor fully truncated — the first stored pair is already gone (stored
turns were lost), yet more than 2 turns remain with the budget unmet. -/
theorem truncation_atomicity_cex :
    (truncate_historyE cBad cfgC5 histC5).1 = true ∧
    (truncate_historyE cBad cfgC5 histC5).2 ≠ histC5 ∧
    (⟨Role.user, "u1"⟩ : ChatMessage) ∈ histC5 ∧
    (⟨Role.user, "u1"⟩ : ChatMessage) ∉ (truncate_historyE cBad cfgC5 histC5).2 ∧
    2 < (truncate_historyE cBad cfgC5 histC5).2.length := by
  rw [truncE_eval]
  exact ⟨rfl, by decide, by decide, by decide, by decide⟩

/-- C5 amended: when the tokenizer's encode step fails during the token-budget
pass, the error is surfaced and the history is left in a consistent state —
the System turn still heads it and only whole oldest pairs have been deleted
(never a partial splice) — but it may be partially truncated: the pair-pass
result with some number of oldest pairs already removed, not necessarily
unmodified. -/
theorem truncation_atomicity_amended (count : String → Except Unit Nat)
    (cfg : BotConfig) (x : ChatMessage) (t : List ChatMessage)
    (hfail : (truncate_historyE count cfg (x :: t)).1 = true) :
    ∃ t', pairPass cfg.history_max_pairs (x :: t) = x :: t' ∧
      (∀ m ∈ t', m ∈ t) ∧
      ∃ k, (truncate_historyE count cfg (x :: t)).2 = x :: t'.drop (2 * k) := by
  obtain ⟨t', hp, hsub⟩ := pairPass_shape cfg.history_max_pairs x t
  refine ⟨t', hp, hsub, ?_⟩
  unfold truncate_historyE at hfail ⊢
  rw [hp] at hfail ⊢
  by_cases hmt : cfg.history_max_tokens ≤ 0
  · rw [if_pos hmt] at hfail
    simp at hfail
  · rw [if_neg hmt] at hfail ⊢
    exact tokenPassE_shape count cfg.history_max_tokens _ x t' rfl

/-- Witness for C5 (amended) at the concrete failing run. -/
theorem truncation_atomicity_amended_witness :
    ∃ t', pairPass cfgC5.history_max_pairs (sysC5 :: tC5) = sysC5 :: t' ∧
      (∀ m ∈ t', m ∈ tC5) ∧
      ∃ k, (truncate_historyE cBad cfgC5 (sysC5 :: tC5)).2 =
        sysC5 :: t'.drop (2 * k) :=
  truncation_atomicity_amended cBad cfgC5 sysC5 tC5
    (by rw [show sysC5 :: tC5 = histC5 from rfl, truncE_eval])

/-! ### Claim theorems: build_prompt store effect -/

/-- C7 counterexample: `build_prompt` is not a pure read — on a fresh store it
calls `_ensure_entry`, which inserts a seeded entry for the requested user, so
the store is changed. -/
theorem build_prompt_not_pure_read :
    (build_prompt ⟨"p", 0, 0, 0⟩ 5 emptyStore 1 true).2 ≠ emptyStore := by
  intro hcontra
  have h2 : (build_prompt ⟨"p", 0, 0, 0⟩ 5 emptyStore 1 true).2 1 =
      some ⟨[⟨Role.system, "p"⟩], 5⟩ := rfl
  rw [hcontra] at h2
  simpa [emptyStore] using h2

/-- C7 amended: `build_prompt` renders the current history and modifies no
existing entry — when the user already has an entry the store is returned
unchanged, and other users are never touched — but for a user with no entry it
inserts a freshly seeded entry (System turn, `updated_at = now`) before
rendering. -/
theorem build_prompt_read_amended (cfg : BotConfig) (now : Int) (s : Store)
    (u : Int) (flag : Bool) :
    (∀ e, s u = some e →
      (build_prompt cfg now s u flag).1 = build_prompt_from_history e.history flag ∧
      (build_prompt cfg now s u flag).2 = s) ∧
    (∀ v, v ≠ u → (build_prompt cfg now s u flag).2 v = s v) ∧
    (s u = none →
      (build_prompt cfg now s u flag).1 =
        build_prompt_from_history [⟨Role.system, cfg.system_prompt⟩] flag ∧
      (build_prompt cfg now s u flag).2 u =
        some ⟨[⟨Role.system, cfg.system_prompt⟩], now⟩) := by
  refine ⟨?_, ?_, ?_⟩
  · intro e hsu
    unfold build_prompt
    rw [ensure_entry_of_some cfg now s u e hsu]
    exact ⟨rfl, rfl⟩
  · intro v hvu
    unfold build_prompt
    exact ensure_entry_snd_ne cfg now s u v hvu
  · intro hsu
    unfold build_prompt
    rw [ensure_entry_of_none cfg now s u hsu]
    exact ⟨rfl, by simp [storeSet]⟩

/-- Witness for C7 (amended) at a store that already holds an entry for the
requested user: the prompt renders that history and the store is unchanged. -/
theorem build_prompt_read_amended_witness :
    (build_prompt cfgT 9 sT 2 true).1 =
      build_prompt_from_history entryT.history true ∧
    (build_prompt cfgT 9 sT 2 true).2 = sT :=
  (build_prompt_read_amended cfgT 9 sT 2 true).1 entryT rfl
